import Mathlib

/-!
Verification development for the release-notes core of
`JRascall/teams-notify-release-notes` (`src/index.js`).

The JavaScript functions with decision logic — `findPreviousReleaseTag`,
`findHotfixRelatedTags`, `parseConventionalCommit`, `parseCommits` — are
embedded as executable Lean definitions over the same data.  JavaScript
string primitives used by the source (`split`, `includes`, `startsWith`,
`endsWith`, `parseInt`, string `<`, the two conventional-commit regular
expressions and the version regular expression) are modelled explicitly on
`List Char`.  All definitions use structural (or fuelled) recursion so that
concrete inputs evaluate inside the kernel via `rfl` / `decide`.
-/

namespace TeamsNotify

/-! ## JavaScript string primitives -/

/-- JavaScript string comparison `a < b`: lexicographic on code units.
All strings compared in the source are ASCII, where Lean `Char` order
coincides with JS code-unit order. -/
def jsStrLtChars : List Char → List Char → Bool
  | [], [] => false
  | [], _ :: _ => true
  | _ :: _, [] => false
  | a :: as, b :: bs =>
    if a < b then true else if b < a then false else jsStrLtChars as bs

/-- JavaScript `a < b` on strings. -/
def jsStrLt (a b : String) : Bool :=
  jsStrLtChars a.data b.data

/-- Splitter for `String.prototype.split(sep)` with a non-empty separator:
split at each leftmost, non-overlapping occurrence, keeping empty pieces.
`fuel` only makes the recursion structural; it starts above the input
length, so the `0` case is unreachable. -/
def splitChars (sep : List Char) : Nat → List Char → List Char → List (List Char)
  | 0, acc, rest => [acc.reverse ++ rest]
  | _ + 1, acc, [] => [acc.reverse]
  | fuel + 1, acc, c :: cs =>
    if sep.isPrefixOf (c :: cs) then
      acc.reverse :: splitChars sep fuel [] (List.drop (sep.length - 1) cs)
    else
      splitChars sep fuel (c :: acc) cs

/-- JavaScript `s.split(sep)`.  Every call site in the source uses a
non-empty separator (`"-hotfix"`, `"\n"`, `"."`). -/
def jsSplitOn (s sep : String) : List String :=
  if sep = "" then [s]
  else (splitChars sep.data (s.data.length + 1) [] s.data).map List.asString

/-- JavaScript `s.includes(sub)` for non-empty `sub`: some occurrence exists
iff splitting on it produces more than one piece. -/
def jsIncludes (s sub : String) : Bool :=
  decide ((jsSplitOn s sub).length > 1)

/-- JavaScript `s.startsWith(p)`. -/
def jsStartsWith (s p : String) : Bool :=
  p.data.isPrefixOf s.data

/-- JavaScript `s.endsWith(p)`. -/
def jsEndsWith (s p : String) : Bool :=
  p.data.isSuffixOf s.data

/-- ECMAScript line terminators (what `.` in a regex does not match):
LF, CR, U+2028, U+2029. -/
def isJsLineTerm (c : Char) : Bool :=
  c == '\n' || c == '\r' || c.toNat == 0x2028 || c.toNat == 0x2029

/-- ECMAScript whitespace: what regex `\s` matches and what `parseInt`
skips (WhiteSpace plus LineTerminator). -/
def isJsSpace (c : Char) : Bool :=
  c == ' ' || c == '\t' || c == '\n' || c.toNat == 0xb || c.toNat == 0xc || c == '\r' ||
  c.toNat == 0xa0 || c.toNat == 0x1680 ||
  (decide (0x2000 ≤ c.toNat) && decide (c.toNat ≤ 0x200a)) ||
  c.toNat == 0x2028 || c.toNat == 0x2029 || c.toNat == 0x202f || c.toNat == 0x205f ||
  c.toNat == 0x3000 || c.toNat == 0xfeff

/-- Numeric value of an ASCII digit. -/
def digitVal (c : Char) : Nat := c.toNat - '0'.toNat

/-- Accumulate a leading run of decimal digits, ignoring everything after
the first non-digit (as `parseInt` does). -/
def decDigitsToNat : Nat → List Char → Nat
  | acc, [] => acc
  | acc, c :: cs => if c.isDigit then decDigitsToNat (acc * 10 + digitVal c) cs else acc

/-- ASCII hexadecimal digit test. -/
def isHexDigit (c : Char) : Bool :=
  c.isDigit || (decide ('a' ≤ c.toLower) && decide (c.toLower ≤ 'f'))

/-- Numeric value of a hexadecimal digit. -/
def hexDigitVal (c : Char) : Nat :=
  if c.isDigit then digitVal c else (c.toLower.toNat - 'a'.toNat) + 10

/-- Accumulate a leading run of hexadecimal digits. -/
def hexDigitsToNat : Nat → List Char → Nat
  | acc, [] => acc
  | acc, c :: cs => if isHexDigit c then hexDigitsToNat (acc * 16 + hexDigitVal c) cs else acc

/-- JavaScript `parseInt(s)` with no radix argument: skip whitespace, read
an optional sign, then either a `0x`/`0X`-prefixed hexadecimal digit run or
a decimal digit run, ignoring any trailing characters; `NaN` (here `none`)
when no digit follows. -/
def jsParseInt (s : String) : Option Int :=
  let cs := s.data.dropWhile isJsSpace
  let signAndRest : Int × List Char :=
    match cs with
    | '-' :: r => (-1, r)
    | '+' :: r => (1, r)
    | r => (1, r)
  match signAndRest with
  | (sign, '0' :: 'x' :: r) | (sign, '0' :: 'X' :: r) =>
    match r with
    | c :: _ => if isHexDigit c then some (sign * Int.ofNat (hexDigitsToNat 0 r)) else none
    | [] => none
  | (sign, r) =>
    match r with
    | c :: _ => if c.isDigit then some (sign * Int.ofNat (decDigitsToNat 0 r)) else none
    | [] => none

/-! ## Data model -/

/-- One tag object as consumed from the GitHub `listTags` response:
`{ name }`. -/
structure TagRef where
  name : String
deriving DecidableEq

/-- The distinct failure kinds thrown by the resolvers, one constructor per
`throw new Error(...)` site in the source, carrying the tag / identifier
interpolated into the message:
`invalidVersionFormat` = "Invalid version format in tag: …",
`noPreviousRelease` = "No previous release tag found before …",
`baseReleaseNotFound` = "Could not find base release tag: …". -/
inductive ResolutionError where
  | invalidVersionFormat (tag : String)
  | noPreviousRelease (tag : String)
  | baseReleaseNotFound (tag : String)
deriving DecidableEq

/-- One commit record as used by `parseCommits`: the source reads
`commit.commit.message` and `commit.commit.author.name`. -/
structure CommitRef where
  message : String
  authorName : String
deriving DecidableEq

/-- Result of `parseConventionalCommit`. -/
structure ParsedCommit where
  type : String
  scope : String
  subject : String
deriving DecidableEq

/-- One rendered entry: the source pushes `{ title, details: [] }`. -/
structure ClassifiedEntry where
  title : String
  details : List String
deriving DecidableEq

/-- The `sections` object, modelled as an association list so that its key
set and key order are part of the value, as they are for a JS object. -/
abbrev Sections := List (String × List ClassifiedEntry)

/-! ## Conventional-commit parsing (`parseConventionalCommit`)

The source matches the whole message against
`/^(?<type>\w+)\((?<scope>[^)]+)\):\s*(?<subject>.+)$/` and then
`/^(?<type>\w+):\s*(?<subject>.+)$/` (no `m` flag: `^`/`$` anchor the whole
input, `.` excludes line terminators, `\s` includes them).  Each piece of
the patterns is deterministic except `\s*(.+)$`, whose backtracking is
modelled explicitly. -/

/-- Regex `\w` = `[A-Za-z0-9_]`. -/
def isWordChar (c : Char) : Bool :=
  c.isAlpha || c.isDigit || c == '_'

/-- Can `rem` be the text matched by `(.+)$`?  Non-empty, no line
terminator, running to the end of the input. -/
def subjectOk (rem : List Char) : Bool :=
  !rem.isEmpty && rem.all (fun c => !isJsLineTerm c)

/-- Backtracking for `\s*(.+)$`: start with all whitespace consumed
(`pre` is the reversed consumed run), give characters back one at a time
until `(.+)$` matches. -/
def subjectBacktrack : List Char → List Char → Option (List Char)
  | [], rem => if subjectOk rem then some rem else none
  | c :: pre, rem => if subjectOk rem then some rem else subjectBacktrack pre (c :: rem)

/-- Match `\s*(.+)$` against `rest`, returning the `subject` capture. -/
def matchSubjectToEnd (rest : List Char) : Option (List Char) :=
  let (ws, rem) := rest.span isJsSpace
  subjectBacktrack ws.reverse rem

/-- Match `^(\w+)\(([^)]+)\):\s*(.+)$` and return (type, scope, subject). -/
def matchTypeScopeSubject (cs : List Char) : Option (List Char × List Char × List Char) :=
  match cs.span isWordChar with
  | ([], _) => none
  | (t, '(' :: rest) =>
    match rest.span (fun c => !(c == ')')) with
    | ([], _) => none
    | (s, ')' :: ':' :: rest2) => (matchSubjectToEnd rest2).map (fun subj => (t, s, subj))
    | _ => none
  | _ => none

/-- Match `^(\w+):\s*(.+)$` and return (type, subject). -/
def matchTypeSubject (cs : List Char) : Option (List Char × List Char) :=
  match cs.span isWordChar with
  | ([], _) => none
  | (t, ':' :: rest) => (matchSubjectToEnd rest).map (fun subj => (t, subj))
  | _ => none

/-- `parseConventionalCommit(message)`: try the scoped pattern, then the
unscoped one, then fall back to type `"other"` with the first line of the
message (`message.split("\n")[0]`) as subject. -/
def parseConventionalCommit (message : String) : ParsedCommit :=
  match matchTypeScopeSubject message.data with
  | some (t, s, subj) => ⟨t.asString, s.asString, subj.asString⟩
  | none =>
    match matchTypeSubject message.data with
    | some (t, subj) => ⟨t.asString, "", subj.asString⟩
    | none => ⟨"other", "", (jsSplitOn message "\n").headD message⟩

/-! ## Commit classification (`parseCommits`) -/

/-- The initial `sections` object literal. -/
def initialSections : Sections :=
  [("features", []), ("improvements", []), ("bugfixes", [])]

/-- The own properties of the `commitTypeMap` object literal. -/
def commitTypeMap : List (String × String) :=
  [("feat", "features"), ("fix", "bugfixes"), ("perf", "improvements"),
   ("refactor", "improvements"), ("style", "improvements")]

/-- The property names a plain object literal inherits from
`Object.prototype`; each is bound to a truthy value (a built-in function,
or `Object.prototype` itself for `__proto__`). -/
def objectProtoKeys : List String :=
  ["constructor", "hasOwnProperty", "isPrototypeOf", "propertyIsEnumerable",
   "toLocaleString", "toString", "valueOf", "__defineGetter__", "__defineSetter__",
   "__lookupGetter__", "__lookupSetter__", "__proto__"]

/-- The value of a JavaScript property read on a plain object literal,
abstracted to what the classifier inspects: a string own-property (truthy
— every value in `commitTypeMap` is a non-empty section name), a truthy
member inherited from `Object.prototype` (whose string coercion is never a
key of `sections`), or `undefined` (falsy). -/
inductive PropValue where
  | str (s : String)
  | protoMember
  | undefinedValue
deriving DecidableEq

/-- JavaScript property access `commitTypeMap[type]`, prototype chain
included: an own key yields its string value; otherwise a property name
inherited from `Object.prototype` (e.g. `constructor`, `toString`,
`hasOwnProperty`, `__proto__` — all matchable by the regex `\w+`) yields
a truthy function/object; otherwise the access yields `undefined`. -/
def commitTypeMapGet (type : String) : PropValue :=
  match commitTypeMap.lookup type with
  | some s => .str s
  | none => if type ∈ objectProtoKeys then .protoMember else .undefinedValue

/-- A JavaScript runtime exception reachable in the classifier:
`sections[section].push(...)` where `sections[section]` is `undefined`
throws `TypeError: Cannot read properties of undefined (reading 'push')`. -/
inductive JsError where
  | typeError
deriving DecidableEq

/-- Regex `/^[A-Za-z]+-\d+$/` used to decide whether a scope is a Linear
ticket reference. -/
def scopeTicketMatch (s : String) : Bool :=
  match s.data.span Char.isAlpha with
  | ([], _) => false
  | (_, '-' :: rest) => !rest.isEmpty && rest.all Char.isDigit
  | _ => false

/-- Title construction for one included commit (the body of the `if
(section)` block): `baseTitle` from scope/subject/author, wrapped as a
markdown link when `linearBaseUrl && scope && scope.match(/^[A-Za-z]+-\d+$/)`
(JS truthiness: a `null` or empty url, or an empty scope, disables the
link). -/
def mkTitle (linearBaseUrl : Option String) (scope subject authorName : String) : String :=
  let baseTitle :=
    if scope = "" then subject ++ " - " ++ authorName
    else scope ++ " - " ++ subject ++ " - " ++ authorName
  match linearBaseUrl with
  | some url =>
    if url ≠ "" ∧ scope ≠ "" ∧ scopeTicketMatch scope = true then
      "[" ++ baseTitle ++ "](" ++ url ++ "/" ++ scope ++ ")"
    else baseTitle
  | none => baseTitle

/-- `sections[section].push(entry)` for a `section` that is an own value
of `commitTypeMap` (one of the three section names, all own keys of
`sections`): append to the list bound to `key`. -/
def jsPushEntry (sections : Sections) (key : String) (e : ClassifiedEntry) : Sections :=
  sections.map (fun p => if p.1 = key then (p.1, p.2 ++ [e]) else p)

/-- The body of the `commits.forEach` callback in `parseCommits`,
following JavaScript property semantics (`commitTypeMapGet`): an own key
of `commitTypeMap` gives a section name and the entry is pushed; an
inherited `Object.prototype` member is truthy, so `if (section)` is
entered and `sections[section]` — indexed by that member's string
coercion, which is no key of `sections` — is `undefined`, making `.push`
throw a `TypeError`; `undefined` (no such property at all) is falsy and
the commit is skipped. -/
def parseCommitStep (linearBaseUrl : Option String) (sections : Sections)
    (commit : CommitRef) : Except JsError Sections :=
  let p := parseConventionalCommit commit.message
  match commitTypeMapGet p.type with
  | .str sec =>
    .ok (jsPushEntry sections sec ⟨mkTitle linearBaseUrl p.scope p.subject commit.authorName, []⟩)
  | .protoMember => .error .typeError
  | .undefinedValue => .ok sections

/-- The `commits.forEach(...)` loop: an exception thrown by the callback
aborts the iteration and propagates out of `parseCommits`. -/
def parseCommitsGo (linearBaseUrl : Option String) :
    Sections → List CommitRef → Except JsError Sections
  | sections, [] => .ok sections
  | sections, commit :: commits =>
    match parseCommitStep linearBaseUrl sections commit with
    | .ok next => parseCommitsGo linearBaseUrl next commits
    | .error e => .error e

/-- `parseCommits(commits, linearBaseUrl = null)`. -/
def parseCommits (commits : List CommitRef) (linearBaseUrl : Option String := none) :
    Except JsError Sections :=
  parseCommitsGo linearBaseUrl initialSections commits

/-! ## Release resolver (`findPreviousReleaseTag`)

`getVersionNumber` applies `tag.match(/v?(\d+\.\d+\.\d+)/)` — an unanchored
search whose every piece is deterministic: at each start position the
optional `v` is tried first, each `\d+` is a maximal digit run forced by
the following literal `.` . -/

/-- Try `(\d+\.\d+\.\d+)` at the head of `cs`; return the capture. -/
def versionTripleAt (cs : List Char) : Option (List Char) :=
  match cs.span Char.isDigit with
  | ([], _) => none
  | (d1, '.' :: r1) =>
    match r1.span Char.isDigit with
    | ([], _) => none
    | (d2, '.' :: r2) =>
      match r2.span Char.isDigit with
      | ([], _) => none
      | (d3, _) => some (d1 ++ '.' :: (d2 ++ '.' :: d3))
    | _ => none
  | _ => none

/-- Leftmost match of `/v?(\d+\.\d+\.\d+)/`: scan start positions left to
right; where the character is `v` the triple is tried after it (a triple
can never start at the `v` itself, since `v` is not a digit). -/
def findVersionChars : List Char → Option (List Char)
  | [] => none
  | c :: cs =>
    if c == 'v' then
      match versionTripleAt cs with
      | some cap => some cap
      | none => findVersionChars cs
    else
      match versionTripleAt (c :: cs) with
      | some cap => some cap
      | none => findVersionChars cs

/-- `getVersionNumber(tag)`: the first capture of
`tag.match(/v?(\d+\.\d+\.\d+)/)`, or `null`. -/
def getVersionNumber (tag : String) : Option String :=
  (findVersionChars tag.data).map List.asString

/-- `Number(part)` for the parts of a captured version string; every
reachable argument is a non-empty decimal digit run, on which `Number`
is plain decimal parsing. -/
def jsNumberOfDigits (s : String) : Nat :=
  decDigitsToNat 0 s.data

/-- `version.split(".").map(Number)` destructured into (major, minor,
patch). -/
def parseVersionParts (v : String) : Nat × Nat × Nat :=
  let parts := jsSplitOn v "."
  (jsNumberOfDigits (parts.getD 0 ""), jsNumberOfDigits (parts.getD 1 ""),
    jsNumberOfDigits (parts.getD 2 ""))

/-- An element of the mapped `releaseTags` array:
`{ name, version: getVersionNumber(name) }`. -/
structure VersionTag where
  name : String
  version : Option String
deriving DecidableEq

/-- The sort comparator of `findPreviousReleaseTag` as a before-or-equal
test: `comparator(a, b) <= 0`.  The comparator returns `bMajor - aMajor`
when the majors differ, else `bMinor - aMinor` when the minors differ,
else `bPatch - aPatch`, i.e. a numeric per-component descending order.
Both versions are `some` for every element that reaches the sort. -/
def versionSortLe (a b : VersionTag) : Bool :=
  let (aMajor, aMinor, aPatch) := parseVersionParts (a.version.getD "")
  let (bMajor, bMinor, bPatch) := parseVersionParts (b.version.getD "")
  if aMajor ≠ bMajor then decide (bMajor < aMajor)
  else if aMinor ≠ bMinor then decide (bMinor < aMinor)
  else decide (bPatch ≤ aPatch)

/-- Stable insertion used to model `Array.prototype.sort` (stable per
ES2019) under the consistent comparator above. -/
def insertVersionDesc (t : VersionTag) : List VersionTag → List VersionTag
  | [] => [t]
  | u :: us => if versionSortLe t u then t :: u :: us else u :: insertVersionDesc t us

/-- Stable sort by the comparator of `findPreviousReleaseTag`. -/
def sortVersionDesc : List VersionTag → List VersionTag
  | [] => []
  | t :: ts => insertVersionDesc t (sortVersionDesc ts)

/-- The `releaseTags` pipeline of `findPreviousReleaseTag`: keep tags whose
name ends in `"-release"`, attach `getVersionNumber`, keep those with
`tag.version && tag.version < currentVersion` (JavaScript *string*
comparison, and JS truthiness: a `null` or empty capture is dropped), and
sort descending with the numeric comparator. -/
def lowerReleaseTags (tags : List TagRef) (currentVersion : String) : List VersionTag :=
  sortVersionDesc
    (((tags.filter (fun tag => jsEndsWith tag.name "-release")).map
        (fun tag => VersionTag.mk tag.name (getVersionNumber tag.name))).filter
      (fun tag =>
        match tag.version with
        | some v => if v = "" then false else jsStrLt v currentVersion
        | none => false))

/-- Result object of `findPreviousReleaseTag`:
`{ previousTag, type: "release" }`. -/
structure ReleaseInfo where
  previousTag : String
  type : String
deriving DecidableEq

set_option linter.unusedVariables false in
/-- `findPreviousReleaseTag(octokit, context, currentTag, tagFormat)` with
the externally fetched tag list passed in.  Note that `tagFormat` is an
unused parameter in the source as well. -/
def findPreviousReleaseTag (tags : List TagRef) (currentTag tagFormat : String) :
    Except ResolutionError ReleaseInfo :=
  match getVersionNumber currentTag with
  | none => .error (.invalidVersionFormat currentTag)
  | some currentVersion =>
    match lowerReleaseTags tags currentVersion with
    | [] => .error (.noPreviousRelease currentTag)
    | t :: _ => .ok ⟨t.name, "release"⟩

/-! ## Hotfix resolver (`findHotfixRelatedTags`) -/

/-- `hotfixTag.split("-hotfix")[0]`: the part before the first marker. -/
def baseVersionOf (hotfixTag : String) : String :=
  (jsSplitOn hotfixTag "-hotfix").headD hotfixTag

/-- `parseInt(name.split("-hotfix")[1] || "1")`: the hotfix number derived
from the segment after the first `"-hotfix"` (an absent or empty segment
defaults to `"1"`). -/
def hotfixNumOf (name : String) : Option Int :=
  let s := (jsSplitOn name "-hotfix").getD 1 ""
  jsParseInt (if s = "" then "1" else s)

/-- `currentHotfixNum`: as above, guarded by
`hotfixTag.includes("-hotfix")` (else `1`). -/
def currentHotfixNumOf (hotfixTag : String) : Option Int :=
  if jsIncludes hotfixTag "-hotfix" then hotfixNumOf hotfixTag else some 1

/-- An element of the mapped `relatedHotfixes` array:
`{ name, number }` where `number` is `NaN` (`none`) when the suffix does
not parse. -/
structure HotfixTagInfo where
  name : String
  number : Option Int
deriving DecidableEq

/-- JavaScript `a < b` on the parsed numbers: any comparison against `NaN`
is false. -/
def numLt (a b : Option Int) : Bool :=
  match a, b with
  | some x, some y => decide (x < y)
  | _, _ => false

/-- The hotfix sort comparator `(a, b) => b.number - a.number` as a
before-or-equal test (`<= 0`); a `NaN` difference is treated as `0` per the
ECMAScript sort specification. -/
def hotfixSortLe (a b : HotfixTagInfo) : Bool :=
  match a.number, b.number with
  | some x, some y => decide (y ≤ x)
  | _, _ => true

/-- Stable insertion (see `insertVersionDesc`). -/
def insertHotfixDesc (t : HotfixTagInfo) : List HotfixTagInfo → List HotfixTagInfo
  | [] => [t]
  | u :: us => if hotfixSortLe t u then t :: u :: us else u :: insertHotfixDesc t us

/-- Stable sort by the hotfix comparator.  When every number is a real
integer the comparator is consistent and this is exactly the ES2019 stable
sort; with `NaN` numbers the ECMAScript result is implementation-defined
and this fixes one stable order (no claim depends on that region). -/
def sortHotfixDesc : List HotfixTagInfo → List HotfixTagInfo
  | [] => []
  | t :: ts => insertHotfixDesc t (sortHotfixDesc ts)

/-- Result object of `findHotfixRelatedTags`:
`{ baseReleaseTag, previousHotfixTag, type: "hotfix" }`. -/
structure HotfixInfo where
  baseReleaseTag : String
  previousHotfixTag : Option String
  type : String
deriving DecidableEq

/-- The `tags.filter(...).map(...)` stage of `relatedHotfixes`: all tags
whose name starts with `` `${baseVersion}-hotfix` ``, paired with their
parsed hotfix numbers. -/
def collectedHotfixes (tags : List TagRef) (baseVersion : String) : List HotfixTagInfo :=
  (tags.filter (fun tag => jsStartsWith tag.name (baseVersion ++ "-hotfix"))).map
    (fun tag => HotfixTagInfo.mk tag.name (hotfixNumOf tag.name))

/-- `findHotfixRelatedTags(octokit, context, hotfixTag)` with the
externally fetched tag list passed in. -/
def findHotfixRelatedTags (tags : List TagRef) (hotfixTag : String) :
    Except ResolutionError HotfixInfo :=
  let baseVersion := baseVersionOf hotfixTag
  let currentHotfixNum := currentHotfixNumOf hotfixTag
  let baseReleaseTag := baseVersion ++ "-release"
  if !(tags.any (fun tag => tag.name == baseReleaseTag)) then
    .error (.baseReleaseNotFound baseReleaseTag)
  else
    let relatedHotfixes := sortHotfixDesc (collectedHotfixes tags baseVersion)
    let previousHotfix := relatedHotfixes.find? (fun tag => numLt tag.number currentHotfixNum)
    .ok ⟨baseReleaseTag, previousHotfix.map (·.name), "hotfix"⟩

/-- JavaScript `a || b` for a nullable string `a` (both `null` and the
empty string are falsy). -/
def jsOrString (a : Option String) (b : String) : String :=
  match a with
  | some s => if s = "" then b else s
  | none => b

/-- The base tag chosen by `run()` for a hotfix:
`baseTag = releaseInfo.previousHotfixTag || releaseInfo.baseReleaseTag`. -/
def runHotfixBaseTag (info : HotfixInfo) : String :=
  jsOrString info.previousHotfixTag info.baseReleaseTag

/-! ## Spec-side definition for the refinement claim C8 -/

/-- Second definition written from the words of spec §4.2, for comparison
with the title built by the code: `"{scope} - {subject} - {authorName}"`
when scope is non-empty, else `"{subject} - {authorName}"`. -/
def specTitleBase (scope subject authorName : String) : String :=
  if scope = "" then subject ++ " - " ++ authorName
  else scope ++ " - " ++ subject ++ " - " ++ authorName

/-- `a ≤ b` on parsed hotfix numbers, both of which must be real integers
(`NaN` is never below anything). -/
def optIntLe (a b : Option Int) : Prop :=
  ∃ x y, a = some x ∧ b = some y ∧ x ≤ y

/-! ## Claims about the sequential example and `TagNotFound` (C1, C2) -/

/-- C1 (counterexample): resolving with tags
`["v2-release", "v2", "v1-release", "v1"]`, identifier `"v2"` and tag
format `"{id}-release"` does not succeed with base `"v1-release"`; it
fails with `InvalidVersionFormat`, because the identifier contains no
`MAJOR.MINOR.PATCH` triple and no sequential scan exists in the code. -/
theorem c1_sequential_example_counterexample :
    findPreviousReleaseTag [⟨"v2-release"⟩, ⟨"v2"⟩, ⟨"v1-release"⟩, ⟨"v1"⟩]
        "v2" "{id}-release" =
      .error (.invalidVersionFormat "v2") := rfl

/-- C1 (amended): with identifier `"v2"`, resolution fails with
`InvalidVersionFormat` for every tag list and every tag format — the
resolver performs no sequential scan, ignores the tag format entirely, and
requires a `MAJOR.MINOR.PATCH` triple inside the identifier. -/
theorem c1_sequential_example_amended (tags : List TagRef) (tagFormat : String) :
    findPreviousReleaseTag tags "v2" tagFormat = .error (.invalidVersionFormat "v2") := rfl

/-- C2 (counterexample): the current release tag `"v2.0.0-release"`
(identifier `"v2.0.0"` rendered through format `"{tag}-release"`) is absent
from the tag list `["v1.0.0-release"]`, yet resolution succeeds — it does
not fail, and in particular not with any `TagNotFound` kind. -/
theorem c2_tag_not_found_counterexample :
    "v2.0.0-release" ∉ ([⟨"v1.0.0-release"⟩] : List TagRef).map TagRef.name ∧
    findPreviousReleaseTag [⟨"v1.0.0-release"⟩] "v2.0.0" "{tag}-release" =
      .ok ⟨"v1.0.0-release", "release"⟩ :=
  ⟨by decide, rfl⟩

/-- C2 (amended): the resolver never checks whether the current release
tag is present in the tag list, and no `TagNotFound` failure exists: for
every tag list, identifier and tag format the outcome is success, or
`InvalidVersionFormat` (no parseable triple in the identifier), or
`NoPreviousRelease` (no qualifying lower `"-release"` tag) — absence of
the current release tag is never, by itself, a failure. -/
theorem c2_tag_not_found_amended (tags : List TagRef) (currentTag tagFormat : String) :
    (∃ info, findPreviousReleaseTag tags currentTag tagFormat = .ok info) ∨
    findPreviousReleaseTag tags currentTag tagFormat =
      .error (.invalidVersionFormat currentTag) ∨
    findPreviousReleaseTag tags currentTag tagFormat =
      .error (.noPreviousRelease currentTag) := by
  unfold findPreviousReleaseTag
  cases getVersionNumber currentTag with
  | none => exact Or.inr (Or.inl rfl)
  | some currentVersion =>
    cases h : lowerReleaseTags tags currentVersion with
    | nil => exact Or.inr (Or.inr (by simp [h]))
    | cons t ts => exact Or.inl ⟨⟨t.name, "release"⟩, by simp [h]⟩

/-! ## Claim about semver comparison (C3) -/

/-- C3 (code bug): the filter of `findPreviousReleaseTag` compares version
*strings* with JavaScript `<`, under which `"1.9.0" < "1.10.0"` is false,
so for identifier `"v1.10.0"` the tag `"v1.9.0-release"` is rejected and
resolution throws `NoPreviousRelease` — even though the function's own
sort comparator (numeric, per component) orders `1.9.0` strictly below
`1.10.0`, as the claim and the spec state. -/
theorem c3_semver_filter_lexicographic_bug :
    findPreviousReleaseTag [⟨"v1.9.0-release"⟩] "v1.10.0" "{tag}-release" =
      .error (.noPreviousRelease "v1.10.0") ∧
    jsStrLt "1.9.0" "1.10.0" = false ∧
    versionSortLe ⟨"v1.10.0-release", some "1.10.0"⟩ ⟨"v1.9.0-release", some "1.9.0"⟩ = true ∧
    versionSortLe ⟨"v1.9.0-release", some "1.9.0"⟩ ⟨"v1.10.0-release", some "1.10.0"⟩ = false :=
  ⟨rfl, rfl, rfl, rfl⟩

/-! ## Claim about first-line-only classification (C7) -/

/-- C7 (counterexample): the messages `"feat: x"` and `"feat: x\nbody"`
have the same first line but different classifications — the first parses
as type `feat`, the second matches neither pattern (the patterns are
anchored at the end of the whole message and `.` cannot cross the
newline) and degrades to type `other`. -/
theorem c7_first_line_counterexample :
    (jsSplitOn "feat: x" "\n").headD "" = (jsSplitOn "feat: x\nbody" "\n").headD "" ∧
    parseConventionalCommit "feat: x" ≠ parseConventionalCommit "feat: x\nbody" :=
  ⟨rfl, by decide⟩

/-- C7 (amended): classification matches the *whole* message, not its
first line: `"feat: x"` parses as `⟨feat, ∅, x⟩` and yields a features
entry, while `"feat: x\nbody"` — identical first line — parses as
`⟨other, ∅, "feat: x"⟩` (only the fallback extracts the first line) and is
excluded from every category. -/
theorem c7_first_line_amended :
    parseConventionalCommit "feat: x" = ⟨"feat", "", "x"⟩ ∧
    parseConventionalCommit "feat: x\nbody" = ⟨"other", "", "feat: x"⟩ ∧
    parseCommits [⟨"feat: x", "A"⟩] none =
      .ok [("features", [⟨"x - A", []⟩]), ("improvements", []), ("bugfixes", [])] ∧
    parseCommits [⟨"feat: x\nbody", "A"⟩] none =
      .ok [("features", []), ("improvements", []), ("bugfixes", [])] :=
  ⟨rfl, rfl, rfl, rfl⟩

/-! ## Claims about the classifier (C6, C8, C9) -/

/-- `jsPushEntry` never changes the key sequence of the sections object. -/
theorem map_fst_jsPushEntry (s : Sections) (key : String) (e : ClassifiedEntry) :
    (jsPushEntry s key e).map Prod.fst = s.map Prod.fst := by
  induction s with
  | nil => rfl
  | cons p ps ih =>
    by_cases hp : p.1 = key <;>
      simp only [jsPushEntry, List.map_cons, if_pos, if_neg, hp, ite_true, ite_false] <;>
      exact congrArg _ ih

/-- C6 (code bug): the classifier is not total on real inputs — a commit
whose parsed type is an `Object.prototype` property name makes
`commitTypeMap[type]` truthy through the prototype chain, `if (section)`
is entered, and `sections[section].push` throws a `TypeError`, aborting
classification (shown for `"constructor: crash"` and `"toString: x"`);
an ordinary unmapped type such as `chore` is excluded without failure,
as the claim and spec §4.2/§7 intend. -/
theorem c6_classifier_prototype_type_error :
    parseCommits [⟨"constructor: crash", "A"⟩] none = .error .typeError ∧
    parseCommits [⟨"toString: x", "A"⟩] none = .error .typeError ∧
    parseCommits [⟨"chore: bump deps", "A"⟩] none =
      .ok [("features", []), ("improvements", []), ("bugfixes", [])] :=
  ⟨rfl, rfl, rfl⟩

/-- C8: the commit `"feat(ENG-42): add export"` by `"Jo"` with link base
url `"https://x/y"` yields exactly one features entry, a link to
`https://x/y/ENG-42` containing `"ENG-42 - add export - Jo"`; and in
general the entry title built by the code equals the spec's
`"{scope} - {subject} - {authorName}"` / `"{subject} - {authorName}"`
base title, wrapped as a link only when the url is non-null and the scope
matches letters-hyphen-digits. -/
theorem c8_title_construction :
    parseCommits [⟨"feat(ENG-42): add export", "Jo"⟩] (some "https://x/y") =
      .ok [("features", [⟨"[ENG-42 - add export - Jo](https://x/y/ENG-42)", []⟩]),
       ("improvements", []), ("bugfixes", [])] ∧
    ∀ (linearBaseUrl : Option String) (scope subject authorName : String),
      mkTitle linearBaseUrl scope subject authorName =
        specTitleBase scope subject authorName ∨
      ∃ u, linearBaseUrl = some u ∧ scopeTicketMatch scope = true ∧
        mkTitle linearBaseUrl scope subject authorName =
          "[" ++ specTitleBase scope subject authorName ++ "](" ++ u ++ "/" ++ scope ++ ")" := by
  refine ⟨rfl, ?_⟩
  intro linearBaseUrl scope subject authorName
  cases linearBaseUrl with
  | none => exact Or.inl rfl
  | some u =>
    by_cases h : u ≠ "" ∧ scope ≠ "" ∧ scopeTicketMatch scope = true
    · exact Or.inr ⟨u, rfl, h.2.2, by simp [mkTitle, specTitleBase, h]⟩
    · exact Or.inl (by simp [mkTitle, specTitleBase, h])

/-- A successful classification step never changes the key sequence of
the sections object. -/
theorem map_fst_parseCommitStep {linearBaseUrl : Option String} {acc next : Sections}
    {commit : CommitRef} (h : parseCommitStep linearBaseUrl acc commit = .ok next) :
    next.map Prod.fst = acc.map Prod.fst := by
  simp only [parseCommitStep] at h
  cases hg : commitTypeMapGet (parseConventionalCommit commit.message).type with
  | str sec =>
    rw [hg] at h
    simp only [Except.ok.injEq] at h
    rw [← h]
    exact map_fst_jsPushEntry acc sec _
  | protoMember =>
    rw [hg] at h
    exact Except.noConfusion h
  | undefinedValue =>
    rw [hg] at h
    simp only [Except.ok.injEq] at h
    rw [← h]

/-- C9 (counterexample): classify does not return a three-key sections
object for *every* commit sequence — on a commit whose parsed type is the
inherited property name `constructor`, `commitTypeMap[type]` resolves
through `Object.prototype` to a truthy function, `if (section)` is
entered, and `sections[section].push` throws a `TypeError`: nothing is
returned at all. -/
theorem c9_sections_shape_counterexample :
    parseCommits [⟨"constructor: x", "A"⟩] none = .error .typeError := rfl

/-- C9 (amended): whenever `parseCommits` returns — it throws a
`TypeError` exactly when it reaches a commit whose parsed type is an
inherited `Object.prototype` property name — the returned sections object
has exactly the keys `"features"`, `"improvements"`, `"bugfixes"`, in
that order, each bound to a (possibly empty) entry list; no key is ever
missing or added on any successful run. -/
theorem c9_sections_shape_amended (commits : List CommitRef) (linearBaseUrl : Option String)
    (sections : Sections) (h : parseCommits commits linearBaseUrl = .ok sections) :
    sections.map Prod.fst = ["features", "improvements", "bugfixes"] := by
  have key : ∀ (cs : List CommitRef) (acc s : Sections),
      parseCommitsGo linearBaseUrl acc cs = .ok s → s.map Prod.fst = acc.map Prod.fst := by
    intro cs
    induction cs with
    | nil =>
      intro acc s hgo
      have hacc : (Except.ok acc : Except JsError Sections) = .ok s := hgo
      rw [← Except.ok.inj hacc]
    | cons c cs ih =>
      intro acc s hgo
      unfold parseCommitsGo at hgo
      cases hstep : parseCommitStep linearBaseUrl acc c with
      | error e =>
        rw [hstep] at hgo
        exact Except.noConfusion hgo
      | ok next =>
        rw [hstep] at hgo
        rw [ih next s hgo, map_fst_parseCommitStep hstep]
  exact key commits initialSections sections h

/-- C9 (witness): the amended statement at a concrete successful run. -/
theorem c9_sections_shape_witness :
    parseCommits [⟨"feat: x", "A"⟩] none =
      .ok [("features", [⟨"x - A", []⟩]), ("improvements", []), ("bugfixes", [])] ∧
    ([("features", [⟨"x - A", []⟩]), ("improvements", []), ("bugfixes", [])] : Sections).map
        Prod.fst = ["features", "improvements", "bugfixes"] :=
  ⟨rfl, c9_sections_shape_amended [⟨"feat: x", "A"⟩] none _ rfl⟩

/-! ## Order facts for the hotfix sort -/

/-- `numLt` against `NaN` is always false. -/
theorem numLt_none_right (a : Option Int) : numLt a none = false := by
  cases a <;> rfl

/-- A true `numLt` exposes its two integers. -/
theorem numLt_true_elim {a b : Option Int} (h : numLt a b = true) :
    ∃ x y, a = some x ∧ b = some y ∧ x < y := by
  cases a with
  | none => simp [numLt] at h
  | some x =>
    cases b with
    | none => simp [numLt] at h
    | some y => exact ⟨x, y, rfl, rfl, by simpa [numLt] using h⟩

/-- Descending order on parsed numbers, as a propositional relation:
`b ≤ a` with both numbers real integers. -/
def hotfixGe (a b : HotfixTagInfo) : Prop :=
  optIntLe b.number a.number

/-- A true comparator test between two real-numbered tags gives the
descending relation. -/
theorem hotfixGe_of_sortLe {a b : HotfixTagInfo} (ha : a.number.isSome = true)
    (hb : b.number.isSome = true) (h : hotfixSortLe a b = true) : hotfixGe a b := by
  obtain ⟨x, hx⟩ := Option.isSome_iff_exists.mp ha
  obtain ⟨y, hy⟩ := Option.isSome_iff_exists.mp hb
  exact ⟨y, x, hy, hx, by simpa [hotfixSortLe, hx, hy] using h⟩

/-- A false comparator test forces both numbers real and the reverse
relation. -/
theorem hotfixGe_of_not_sortLe {a b : HotfixTagInfo} (h : hotfixSortLe a b = false) :
    hotfixGe b a := by
  cases ha : a.number with
  | none => simp [hotfixSortLe, ha] at h
  | some x =>
    cases hb : b.number with
    | none => simp [hotfixSortLe, ha, hb] at h
    | some y =>
      have : ¬ (y ≤ x) := by simpa [hotfixSortLe, ha, hb] using h
      exact ⟨x, y, ha, hb, le_of_lt (lt_of_not_le this)⟩

/-- `hotfixGe` is transitive wherever it holds. -/
theorem hotfixGe_trans {a b c : HotfixTagInfo} (h1 : hotfixGe a b) (h2 : hotfixGe b c) :
    hotfixGe a c := by
  obtain ⟨y, x, hy, hx, hyx⟩ := h1
  obtain ⟨z, y2, hz, hy2, hzy⟩ := h2
  have : y2 = y := by rw [hy] at hy2; exact (Option.some.inj hy2).symm
  subst this
  exact ⟨z, x, hz, hx, le_trans hzy hyx⟩

/-- Inserting keeps the same elements. -/
theorem insertHotfixDesc_perm (t : HotfixTagInfo) (l : List HotfixTagInfo) :
    (insertHotfixDesc t l).Perm (t :: l) := by
  induction l with
  | nil => exact List.Perm.refl _
  | cons u us ih =>
    cases h : hotfixSortLe t u with
    | true =>
      simp only [insertHotfixDesc, h, if_true]
      exact List.Perm.refl _
    | false =>
      simp only [insertHotfixDesc, h, Bool.false_eq_true, if_false]
      exact (ih.cons u).trans (List.Perm.swap t u us)

/-- The sort is a permutation. -/
theorem sortHotfixDesc_perm (l : List HotfixTagInfo) : (sortHotfixDesc l).Perm l := by
  induction l with
  | nil => exact List.Perm.refl _
  | cons t ts ih => exact (insertHotfixDesc_perm t (sortHotfixDesc ts)).trans (ih.cons t)

/-- Inserting into a descending list of real-numbered tags keeps it
descending. -/
theorem pairwise_insertHotfixDesc (t : HotfixTagInfo) (ht : t.number.isSome = true) :
    ∀ l : List HotfixTagInfo, (∀ u ∈ l, u.number.isSome = true) →
      l.Pairwise hotfixGe → (insertHotfixDesc t l).Pairwise hotfixGe := by
  intro l
  induction l with
  | nil =>
    intro _ _
    simp [insertHotfixDesc]
  | cons u us ih =>
    intro hl hp
    rw [List.pairwise_cons] at hp
    obtain ⟨hu_us, hp_us⟩ := hp
    have hu : u.number.isSome = true := hl u (by simp)
    have hus : ∀ w ∈ us, w.number.isSome = true := fun w hw => hl w (by simp [hw])
    cases hle : hotfixSortLe t u with
    | true =>
      simp only [insertHotfixDesc, hle, if_true]
      rw [List.pairwise_cons]
      refine ⟨?_, List.pairwise_cons.mpr ⟨hu_us, hp_us⟩⟩
      intro w hw
      rcases List.mem_cons.mp hw with rfl | hw2
      · exact hotfixGe_of_sortLe ht hu hle
      · exact hotfixGe_trans (hotfixGe_of_sortLe ht hu hle) (hu_us w hw2)
    | false =>
      simp only [insertHotfixDesc, hle, Bool.false_eq_true, if_false]
      rw [List.pairwise_cons]
      refine ⟨?_, ih hus hp_us⟩
      intro w hw
      rcases List.mem_cons.mp ((insertHotfixDesc_perm t us).mem_iff.mp hw) with rfl | hw2
      · exact hotfixGe_of_not_sortLe hle
      · exact hu_us w hw2

/-- The sorted list of real-numbered tags is descending. -/
theorem pairwise_sortHotfixDesc :
    ∀ l : List HotfixTagInfo, (∀ u ∈ l, u.number.isSome = true) →
      (sortHotfixDesc l).Pairwise hotfixGe := by
  intro l
  induction l with
  | nil =>
    intro _
    simp [sortHotfixDesc]
  | cons t ts ih =>
    intro hl
    have hts : ∀ u ∈ ts, u.number.isSome = true := fun u hu => hl u (by simp [hu])
    have hsort : ∀ u ∈ sortHotfixDesc ts, u.number.isSome = true := fun u hu =>
      hts u ((sortHotfixDesc_perm ts).mem_iff.mp hu)
    exact pairwise_insertHotfixDesc t (hl t (by simp)) (sortHotfixDesc ts) hsort (ih hts)

/-- In a descending list, the first element below the bound is the largest
element below the bound. -/
theorem find_first_numLt_max (cur : Option Int) :
    ∀ (l : List HotfixTagInfo) (t : HotfixTagInfo),
      l.Pairwise hotfixGe →
      l.find? (fun u => numLt u.number cur) = some t →
      ∀ u ∈ l, numLt u.number cur = true → optIntLe u.number t.number := by
  intro l
  induction l with
  | nil =>
    intro t _ hfind
    simp [List.find?] at hfind
  | cons x xs ih =>
    intro t hp hfind u hu hlt
    rw [List.pairwise_cons] at hp
    cases hx : numLt x.number cur with
    | true =>
      have hxt : x = t := by
        rw [List.find?] at hfind
        rw [hx] at hfind
        exact Option.some.inj hfind
      subst hxt
      rcases List.mem_cons.mp hu with rfl | hu2
      · obtain ⟨a, b, ha, _, _⟩ := numLt_true_elim hlt
        exact ⟨a, a, ha, ha, le_refl a⟩
      · exact hp.1 u hu2
    | false =>
      have hfind2 : xs.find? (fun u => numLt u.number cur) = some t := by
        rw [List.find?] at hfind
        rw [hx] at hfind
        exact hfind
      rcases List.mem_cons.mp hu with rfl | hu2
      · rw [hlt] at hx
        cases hx
      · exact ih t hp.2 hfind2 u hu2 hlt

/-! ## Claims about the hotfix strategy (C4, C5, C10) -/

/-- Membership of a qualifying tag in the collected hotfix list. -/
theorem mem_collectedHotfixes {tags : List TagRef} {bv : String} {t : TagRef}
    (ht : t ∈ tags) (hstart : jsStartsWith t.name (bv ++ "-hotfix") = true) :
    HotfixTagInfo.mk t.name (hotfixNumOf t.name) ∈ collectedHotfixes tags bv :=
  List.mem_map.mpr ⟨t, List.mem_filter.mpr ⟨ht, hstart⟩, rfl⟩

/-- A name with the (never-empty) hotfix prefix is itself non-empty. -/
theorem name_ne_empty_of_startsWith {name bv : String}
    (h : jsStartsWith name (bv ++ "-hotfix") = true) : name ≠ "" := by
  intro he
  rw [jsStartsWith, he] at h
  cases hl : (bv ++ "-hotfix").data with
  | nil =>
    have : bv.data ++ "-hotfix".data = [] := by rw [← String.data_append, hl]
    rcases List.append_eq_nil.mp this with ⟨-, h2⟩
    exact absurd h2 (by decide)
  | cons a as =>
    rw [hl] at h
    simp [List.isPrefixOf] at h

set_option linter.unusedVariables false in
/-- C5: for every tag list and every identifier containing `"-hotfix"`,
when the tag `` `${baseVersion}-release` `` is absent from the list,
`findHotfixRelatedTags` fails with `BaseReleaseNotFound` — whatever hotfix
tags are present. -/
theorem c5_hotfix_missing_base (tags : List TagRef) (hotfixTag : String)
    (hmark : jsIncludes hotfixTag "-hotfix" = true)
    (habsent : (baseVersionOf hotfixTag ++ "-release") ∉ tags.map TagRef.name) :
    findHotfixRelatedTags tags hotfixTag =
      .error (.baseReleaseNotFound (baseVersionOf hotfixTag ++ "-release")) := by
  have hany : tags.any (fun tag => tag.name == (baseVersionOf hotfixTag ++ "-release")) =
      false := by
    rw [List.any_eq_false]
    intro tag htag hbeq
    exact habsent (List.mem_map.mpr ⟨tag, htag, by simpa using hbeq⟩)
  simp [findHotfixRelatedTags, hany]

/-- C5 (witness): identifier `"v1.0.0-hotfix2"` against a tag list holding
only `"v1.0.0-hotfix1"`. -/
theorem c5_hotfix_missing_base_witness :
    findHotfixRelatedTags [⟨"v1.0.0-hotfix1"⟩] "v1.0.0-hotfix2" =
      .error (.baseReleaseNotFound "v1.0.0-release") := by
  exact c5_hotfix_missing_base _ _ (by decide) (by decide)

/-- C10: when the segment after `"-hotfix"` is non-empty but not a
parseable integer (`parseInt` gives `NaN`), and the base release tag is
present, resolution still succeeds: no collected hotfix tag compares below
`NaN`, so `previousHotfixTag` is `null` and the resolved base is the base
release tag. -/
theorem c10_hotfix_malformed_suffix (tags : List TagRef) (hotfixTag s : String)
    (hseg : (jsSplitOn hotfixTag "-hotfix")[1]? = some s)
    (hne : s ≠ "")
    (hnan : jsParseInt s = none)
    (hbase : (baseVersionOf hotfixTag ++ "-release") ∈ tags.map TagRef.name) :
    ∃ info, findHotfixRelatedTags tags hotfixTag = .ok info ∧
      info.previousHotfixTag = none ∧
      info.baseReleaseTag = baseVersionOf hotfixTag ++ "-release" ∧
      runHotfixBaseTag info = info.baseReleaseTag := by
  obtain ⟨tag, htag, hname⟩ := List.mem_map.mp hbase
  have hany : tags.any (fun tag => tag.name == (baseVersionOf hotfixTag ++ "-release")) =
      true :=
    List.any_eq_true.mpr ⟨tag, htag, by simp [hname]⟩
  have hlen : 1 < (jsSplitOn hotfixTag "-hotfix").length := by
    by_contra hcontra
    rw [List.getElem?_eq_none (Nat.le_of_not_lt hcontra)] at hseg
    cases hseg
  have hinc : jsIncludes hotfixTag "-hotfix" = true := by
    simp [jsIncludes, hlen]
  have hcur : currentHotfixNumOf hotfixTag = none := by
    simp [currentHotfixNumOf, hotfixNumOf, hinc, List.getD, hseg, hne, hnan]
  have hfind : ∀ l : List HotfixTagInfo,
      l.find? (fun tag => numLt tag.number (currentHotfixNumOf hotfixTag)) = none := by
    intro l
    rw [hcur]
    exact List.find?_eq_none.mpr (fun x _ => by simp [numLt_none_right])
  refine ⟨⟨baseVersionOf hotfixTag ++ "-release", none, "hotfix"⟩, ?_, rfl, rfl, rfl⟩
  simp [findHotfixRelatedTags, hany, hfind]

/-- C10 (witness): identifier `"v1.0.0-hotfixX"` with base release present
resolves to the base release tag with no previous hotfix. -/
theorem c10_hotfix_malformed_suffix_witness :
    ∃ info, findHotfixRelatedTags [⟨"v1.0.0-release"⟩, ⟨"v1.0.0-hotfix1"⟩]
        "v1.0.0-hotfixX" = .ok info ∧
      info.previousHotfixTag = none ∧
      info.baseReleaseTag = baseVersionOf "v1.0.0-hotfixX" ++ "-release" ∧
      runHotfixBaseTag info = info.baseReleaseTag :=
  c10_hotfix_malformed_suffix _ _ "X" (by decide) (by decide) (by decide) (by decide)

/-- C4: for an identifier containing `"-hotfix"` whose base release tag
`` `${baseVersion}-release` `` is present, and whose prefix-matching tags
all carry parseable hotfix numbers, resolution succeeds and the resolved
base (`previousHotfixTag || baseReleaseTag` in `run()`) is a collected
hotfix tag with number strictly below the identifier's hotfix number and
maximal among all such tags — or the base release tag itself when no
collected tag qualifies.  The two spec examples: identifier
`"v1.0.0-hotfix3"` with hotfix tags 1 and 2 gives base
`"v1.0.0-hotfix2"`; with no hotfix tags it gives `"v1.0.0-release"`. -/
theorem c4_hotfix_base_selection :
    (∀ (tags : List TagRef) (hotfixTag : String),
      jsIncludes hotfixTag "-hotfix" = true →
      (baseVersionOf hotfixTag ++ "-release") ∈ tags.map TagRef.name →
      (∀ t ∈ tags, jsStartsWith t.name (baseVersionOf hotfixTag ++ "-hotfix") = true →
        (hotfixNumOf t.name).isSome = true) →
      ∃ info, findHotfixRelatedTags tags hotfixTag = .ok info ∧
        info.baseReleaseTag = baseVersionOf hotfixTag ++ "-release" ∧
        ((info.previousHotfixTag = none ∧
            runHotfixBaseTag info = info.baseReleaseTag ∧
            ∀ t ∈ tags, jsStartsWith t.name (baseVersionOf hotfixTag ++ "-hotfix") = true →
              numLt (hotfixNumOf t.name) (currentHotfixNumOf hotfixTag) = false) ∨
          ∃ t ∈ tags,
            jsStartsWith t.name (baseVersionOf hotfixTag ++ "-hotfix") = true ∧
            numLt (hotfixNumOf t.name) (currentHotfixNumOf hotfixTag) = true ∧
            info.previousHotfixTag = some t.name ∧
            runHotfixBaseTag info = t.name ∧
            ∀ u ∈ tags, jsStartsWith u.name (baseVersionOf hotfixTag ++ "-hotfix") = true →
              numLt (hotfixNumOf u.name) (currentHotfixNumOf hotfixTag) = true →
              optIntLe (hotfixNumOf u.name) (hotfixNumOf t.name))) ∧
    findHotfixRelatedTags [⟨"v1.0.0-hotfix1"⟩, ⟨"v1.0.0-hotfix2"⟩, ⟨"v1.0.0-release"⟩]
        "v1.0.0-hotfix3" = .ok ⟨"v1.0.0-release", some "v1.0.0-hotfix2", "hotfix"⟩ ∧
    runHotfixBaseTag ⟨"v1.0.0-release", some "v1.0.0-hotfix2", "hotfix"⟩ = "v1.0.0-hotfix2" ∧
    findHotfixRelatedTags [⟨"v1.0.0-release"⟩] "v1.0.0-hotfix3" =
      .ok ⟨"v1.0.0-release", none, "hotfix"⟩ ∧
    runHotfixBaseTag ⟨"v1.0.0-release", none, "hotfix"⟩ = "v1.0.0-release" := by
  refine ⟨?_, rfl, rfl, rfl, rfl⟩
  intro tags hotfixTag hmark hbase hall
  obtain ⟨tagw, htagw, hnamew⟩ := List.mem_map.mp hbase
  have hany : tags.any (fun tag => tag.name == (baseVersionOf hotfixTag ++ "-release")) =
      true :=
    List.any_eq_true.mpr ⟨tagw, htagw, by simp [hnamew]⟩
  have hresult : findHotfixRelatedTags tags hotfixTag =
      .ok ⟨baseVersionOf hotfixTag ++ "-release",
        ((sortHotfixDesc (collectedHotfixes tags (baseVersionOf hotfixTag))).find?
          (fun tag => numLt tag.number (currentHotfixNumOf hotfixTag))).map (·.name),
        "hotfix"⟩ := by
    simp [findHotfixRelatedTags, hany]
  have hsome : ∀ x ∈ collectedHotfixes tags (baseVersionOf hotfixTag),
      x.number.isSome = true := by
    intro x hx
    obtain ⟨u, hu_filter, rfl⟩ := List.mem_map.mp hx
    obtain ⟨hu_tags, hu_start⟩ := List.mem_filter.mp hu_filter
    exact hall u hu_tags hu_start
  cases hfind : (sortHotfixDesc (collectedHotfixes tags (baseVersionOf hotfixTag))).find?
      (fun tag => numLt tag.number (currentHotfixNumOf hotfixTag)) with
  | none =>
    rw [hfind] at hresult
    refine ⟨_, hresult, rfl, Or.inl ⟨rfl, rfl, ?_⟩⟩
    intro t ht hstart
    have hmem : HotfixTagInfo.mk t.name (hotfixNumOf t.name) ∈
        sortHotfixDesc (collectedHotfixes tags (baseVersionOf hotfixTag)) :=
      (sortHotfixDesc_perm _).mem_iff.mpr (mem_collectedHotfixes ht hstart)
    have hnot := List.find?_eq_none.mp hfind _ hmem
    simpa using hnot
  | some found =>
    rw [hfind] at hresult
    have hmemf : found ∈ sortHotfixDesc (collectedHotfixes tags (baseVersionOf hotfixTag)) :=
      List.mem_of_find?_eq_some hfind
    have hpredf : numLt found.number (currentHotfixNumOf hotfixTag) = true := by
      have hp := List.find?_some hfind
      simpa using hp
    obtain ⟨tg, htg_filter, htg_eq⟩ :=
      List.mem_map.mp ((sortHotfixDesc_perm _).mem_iff.mp hmemf)
    obtain ⟨htg_tags, htg_start⟩ := List.mem_filter.mp htg_filter
    have hpw := pairwise_sortHotfixDesc _ hsome
    have hmax := find_first_numLt_max (currentHotfixNumOf hotfixTag) _ found hpw hfind
    have hname_ne : tg.name ≠ "" := name_ne_empty_of_startsWith htg_start
    have hfoundname : found.name = tg.name := by rw [← htg_eq]
    have hfoundnum : found.number = hotfixNumOf tg.name := by rw [← htg_eq]
    refine ⟨_, hresult, rfl, Or.inr ⟨tg, htg_tags, htg_start, ?_, ?_, ?_, ?_⟩⟩
    · rw [← hfoundnum]
      exact hpredf
    · show (some found).map (·.name) = some tg.name
      simp [hfoundname]
    · show runHotfixBaseTag ⟨_, (some found).map (·.name), "hotfix"⟩ = tg.name
      simp [runHotfixBaseTag, jsOrString, hfoundname, hname_ne]
    · intro u hu hustart hunum
      have humem : HotfixTagInfo.mk u.name (hotfixNumOf u.name) ∈
          sortHotfixDesc (collectedHotfixes tags (baseVersionOf hotfixTag)) :=
        (sortHotfixDesc_perm _).mem_iff.mpr (mem_collectedHotfixes hu hustart)
      have hle := hmax _ humem hunum
      rw [hfoundnum] at hle
      exact hle

/-- C4 (witness): the general statement applied at the spec's example
input. -/
theorem c4_hotfix_base_selection_witness :
    ∃ info, findHotfixRelatedTags
        [⟨"v1.0.0-hotfix1"⟩, ⟨"v1.0.0-hotfix2"⟩, ⟨"v1.0.0-release"⟩] "v1.0.0-hotfix3" =
        .ok info ∧
      info.baseReleaseTag = baseVersionOf "v1.0.0-hotfix3" ++ "-release" := by
  obtain ⟨info, h1, h2, -⟩ :=
    c4_hotfix_base_selection.1
      [⟨"v1.0.0-hotfix1"⟩, ⟨"v1.0.0-hotfix2"⟩, ⟨"v1.0.0-release"⟩]
      "v1.0.0-hotfix3" (by decide) (by decide) (by decide)
  exact ⟨info, h1, h2⟩

end TeamsNotify
